import Mathlib

/-! Key management of the chain client (`client/keys.go`).

A shallow embedding of the key-management methods of `ChainClient` and the
properties they have.  The methods are a thin layer over three collaborators
that are not part of `keys.go`:

* the keyring (`cc.Keybase`, an interface value of the cosmos-sdk keyring),
* `Record.GetAddress` and `cc.EncodeBech32AccAddr`,
* the `bip39` entropy source and word encoder.

Each collaborator is a parameter of the embedding: an interface is a record of
functions over an explicit state, and every method of `keys.go` is a function
that threads that state.  The keystore state is `σ`, the state of the entropy
source is `ρ`.
-/

namespace Lens

/-! ## Data model -/

/-- A Go `error` value, identified by its message. -/
structure Error where
  msg : String
deriving DecidableEq, Repr

deriving instance DecidableEq for Except

/-- The bytes of an `sdk.AccAddress`. -/
abbrev AccAddress := List Nat

/-- The fields of `keyring.Record` that `keys.go` reads: the name, and the
public key material from which `GetAddress` computes the address. -/
structure Record where
  Name : String
  PubKey : List Nat
deriving DecidableEq, Repr

/-- The signing algorithms a keyring can be asked for (`keyring.SignatureAlgo`). -/
inductive SignatureAlgo where
  | Secp256k1
  | Ed25519
  | Sr25519
deriving DecidableEq, Repr

/-- The struct `KeyOutput`: mnemonic and address of a key. -/
structure KeyOutput where
  Mnemonic : String
  Address : String
deriving DecidableEq, Repr

/-- A Go `map[string]string`: a finite map without any order on its entries. -/
abbrev GoMap := Finmap (fun _ : String => String)

/-- The methods of the `keyring.Keyring` interface that `keys.go` calls.  Every
method may change the keystore, so every method returns the state it leaves. -/
structure Keyring (σ : Type) where
  Key : String → σ → Except Error Record × σ
  NewAccount : String → String → String → String → SignatureAlgo → σ → Except Error Record × σ
  Delete : String → σ → Option Error × σ
  List : σ → Except Error (List Record) × σ

/-- The two functions of package `bip39` that `CreateMnemonic` calls.
`NewEntropy` draws from the system randomness source, whose state is `ρ`. -/
structure Bip39 (ρ : Type) where
  NewEntropy : Nat → ρ → Except Error (List Nat) × ρ
  NewMnemonic : List Nat → Except Error String

/-- The configuration fields that `keys.go` reads. -/
structure Config where
  ChainID : String
  KeyringBackend : String
  KeyDirectory : String
deriving DecidableEq, Repr

/-- The immutable part of a `ChainClient`: its configuration and the
collaborators its methods call.  The mutable field `cc.Keybase` is the keystore
state that the methods below take and return. -/
structure ChainClient (σ ρ : Type) where
  Config : Config
  /-- The constructor `keyring.New`, applied to chain id, backend and directory. -/
  New : String → String → String → Except Error σ
  /-- The methods of `cc.Keybase`. -/
  Keybase : Keyring σ
  /-- The method `Record.GetAddress`. -/
  GetAddress : Record → Except Error AccAddress
  /-- The method `cc.EncodeBech32AccAddr`, defined in another file of the client. -/
  EncodeBech32AccAddr : AccAddress → Except Error String
  /-- Package `bip39`. -/
  bip39 : Bip39 ρ

/-- What `os.Stat` answers, as far as `errors.Is(err, os.ErrNotExist)` can tell. -/
inductive StatResult where
  | found
  | errNotExist
  | errOther
deriving DecidableEq, Repr

/-! ## The HD path -/

/-- The parameters of a BIP-44 path. -/
structure BIP44Params where
  Purpose : Nat
  CoinType : Nat
  Account : Nat
  Change : Bool
  AddressIndex : Nat
deriving DecidableEq, Repr

/-- Modelled from the spec: `hd.CreateHDPath` belongs to the cosmos-sdk and is
not in this repository; the spec gives "the standard hierarchical path
m/44'/coinType'/0'/0/0", a path of purpose 44 for a coin type, an account and an
address index, on the external chain (change 0). -/
def CreateHDPath (coinType account index : Nat) : BIP44Params :=
  ⟨44, coinType, account, false, index⟩

/-- Modelled from the spec: the method `BIP44Params.String`, absent like
`CreateHDPath`; it prints the path as the spec writes it, the first three
indices hardened and every number in decimal. -/
def BIP44Params.PathString (p : BIP44Params) : String :=
  "m/" ++ String.mk (Nat.toDigits 10 p.Purpose) ++ "'/"
    ++ String.mk (Nat.toDigits 10 p.CoinType) ++ "'/"
    ++ String.mk (Nat.toDigits 10 p.Account) ++ "'/"
    ++ (if p.Change then "1" else "0") ++ "/"
    ++ String.mk (Nat.toDigits 10 p.AddressIndex)

/-! ## The methods of `keys.go` -/

section Methods

variable {σ ρ : Type}

/-- The method `CreateKeystore`: opens the keyring of the configured directory
and stores it in `cc.Keybase`.  The argument `path` is not used. -/
def CreateKeystore (cc : ChainClient σ ρ) (_path : String) (keybase : Option σ) :
    Option Error × Option σ :=
  match cc.New cc.Config.ChainID cc.Config.KeyringBackend cc.Config.KeyDirectory with
  | .error err => (some err, keybase)
  | .ok kb => (none, some kb)

/-- The method `KeystoreCreated`: `os.Stat` is applied to the configured key
directory; `keybase` is `none` while `cc.Keybase` is nil.  The argument `path`
is not used. -/
def KeystoreCreated (stat : String → StatResult) (cc : ChainClient σ ρ) (_path : String)
    (keybase : Option σ) : Bool :=
  if stat cc.Config.KeyDirectory = StatResult.errNotExist then false
  else if keybase.isNone then false
  else true

/-- The function `CreateMnemonic`: 256 bits of entropy, encoded as words. -/
def CreateMnemonic (b : Bip39 ρ) (r : ρ) : Except Error String × ρ :=
  match b.NewEntropy 256 r with
  | (.error err, r1) => (.error err, r1)
  | (.ok entropySeed, r1) =>
    match b.NewMnemonic entropySeed with
    | .error err => (.error err, r1)
    | .ok mnemonic => (.ok mnemonic, r1)

/-- The method `KeyAddOrRestore`.  The variadic `mnemonic` is a list; the state
is the keystore together with the entropy source. -/
def KeyAddOrRestore (cc : ChainClient σ ρ) (keyName : String) (coinType : Nat)
    (mnemonic : List String) (w : σ × ρ) : Except Error KeyOutput × (σ × ρ) :=
  let algo := SignatureAlgo.Secp256k1
  let chosen : Except Error String × ρ :=
    match mnemonic with
    | m0 :: _ => (.ok m0, w.2)
    | [] => CreateMnemonic cc.bip39 w.2
  match chosen with
  | (.error err, r1) => (.error err, (w.1, r1))
  | (.ok mnemonicStr, r1) =>
    match cc.Keybase.NewAccount keyName mnemonicStr ""
        (CreateHDPath coinType 0 0).PathString algo w.1 with
    | (.error err, s1) => (.error err, (s1, r1))
    | (.ok info, s1) =>
      match cc.GetAddress info with
      | .error err => (.error err, (s1, r1))
      | .ok addr =>
        match cc.EncodeBech32AccAddr addr with
        | .error err => (.error err, (s1, r1))
        | .ok out => (.ok ⟨mnemonicStr, out⟩, (s1, r1))

/-- The method `AddKey`. -/
def AddKey (cc : ChainClient σ ρ) (name : String) (coinType : Nat) (w : σ × ρ) :
    Except Error KeyOutput × (σ × ρ) :=
  match KeyAddOrRestore cc name coinType [] w with
  | (.error err, w1) => (.error err, w1)
  | (.ok ko, w1) => (.ok ko, w1)

/-- The method `RestoreKey`. -/
def RestoreKey (cc : ChainClient σ ρ) (name mnemonic : String) (coinType : Nat) (w : σ × ρ) :
    Except Error String × (σ × ρ) :=
  match KeyAddOrRestore cc name coinType [mnemonic] w with
  | (.error err, w1) => (.error err, w1)
  | (.ok ko, w1) => (.ok ko.Address, w1)

/-- The method `ShowAddress`. -/
def ShowAddress (cc : ChainClient σ ρ) (name : String) (s : σ) : Except Error String × σ :=
  match cc.Keybase.Key name s with
  | (.error err, s1) => (.error err, s1)
  | (.ok info, s1) =>
    match cc.GetAddress info with
    | .error err => (.error err, s1)
    | .ok addr =>
      match cc.EncodeBech32AccAddr addr with
      | .error err => (.error err, s1)
      | .ok out => (.ok out, s1)

/-- The loop of `ListAddresses` over the records that `List` returned. -/
def ListAddresses.loop (cc : ChainClient σ ρ) : List Record → GoMap → Except Error GoMap
  | [], out => .ok out
  | k :: rest, out =>
    match cc.GetAddress k with
    | .error err => .error err
    | .ok address =>
      match cc.EncodeBech32AccAddr address with
      | .error err => .error err
      | .ok addr => ListAddresses.loop cc rest (out.insert k.Name addr)

/-- The method `ListAddresses`; a failure is the pair of a nil map and the error. -/
def ListAddresses (cc : ChainClient σ ρ) (s : σ) : Except Error GoMap × σ :=
  match cc.Keybase.List s with
  | (.error err, s1) => (.error err, s1)
  | (.ok info, s1) => (ListAddresses.loop cc info ∅, s1)

/-- The method `DeleteKey`; `none` is the nil error. -/
def DeleteKey (cc : ChainClient σ ρ) (name : String) (s : σ) : Option Error × σ :=
  match cc.Keybase.Delete name s with
  | (some err, s1) => (some err, s1)
  | (none, s1) => (none, s1)

/-- The method `KeyExists`. -/
def KeyExists (cc : ChainClient σ ρ) (name : String) (s : σ) : Bool × σ :=
  match cc.Keybase.Key name s with
  | (.error _, s1) => (false, s1)
  | (.ok k, s1) => (decide (k.Name = name), s1)

end Methods

/-! ## Observing the calls made on the keyring -/

/-- One call of a keyring method, with its arguments. -/
inductive KeyringCall where
  | Key (uid : String)
  | NewAccount (uid mnemonic bip39Passphrase hdPath : String) (algo : SignatureAlgo)
  | Delete (uid : String)
  | List
deriving DecidableEq, Repr

/-- The keyring `kb` with a journal: every call is appended to the journal and
then answered by `kb`. -/
def recording {σ : Type} (kb : Keyring σ) : Keyring (σ × List KeyringCall) where
  Key uid st :=
    ((kb.Key uid st.1).1, ((kb.Key uid st.1).2, st.2 ++ [KeyringCall.Key uid]))
  NewAccount uid mnemonic bip39Passphrase hdPath algo st :=
    ((kb.NewAccount uid mnemonic bip39Passphrase hdPath algo st.1).1,
      ((kb.NewAccount uid mnemonic bip39Passphrase hdPath algo st.1).2,
        st.2 ++ [KeyringCall.NewAccount uid mnemonic bip39Passphrase hdPath algo]))
  Delete uid st :=
    ((kb.Delete uid st.1).1, ((kb.Delete uid st.1).2, st.2 ++ [KeyringCall.Delete uid]))
  List st :=
    ((kb.List st.1).1, ((kb.List st.1).2, st.2 ++ [KeyringCall.List]))

/-- The client `cc` with its keyring replaced by the recording one. -/
def withJournal {σ ρ : Type} (cc : ChainClient σ ρ) : ChainClient (σ × List KeyringCall) ρ where
  Config := cc.Config
  New chainID backend dir := (cc.New chainID backend dir).map (fun kb => (kb, []))
  Keybase := recording cc.Keybase
  GetAddress := cc.GetAddress
  EncodeBech32AccAddr := cc.EncodeBech32AccAddr
  bip39 := cc.bip39

/-! ## A keyring in memory

The theorems below hold for every keyring.  Where one is needed as a concrete
input, it is this one. -/

def ErrNameAlreadyExists : Error := ⟨"NameAlreadyExists"⟩
def ErrKeyNotFound : Error := ⟨"KeyNotFound"⟩
def ErrInvalidMnemonic : Error := ⟨"InvalidMnemonic"⟩
def ErrInvalidCoinType : Error := ⟨"InvalidCoinType"⟩
def ErrEntropySource : Error := ⟨"EntropySourceError"⟩
def ErrEmptyHrp : Error := ⟨"prefix cannot be empty"⟩

/-- Modelled from the spec: the backing store, which is outside this
repository: "key-value persistence keyed by name", names unique, adding a taken
name fails with `NameAlreadyExists`, deleting an absent one fails with
`KeyNotFound` and has no side effect, and the records are listed in insertion
order.  The derivation of the key from mnemonic, passphrase, path and algorithm
is the parameter `derive`. -/
def memKeyring (derive : String → String → String → SignatureAlgo → Except Error (List Nat)) :
    Keyring (List Record) where
  Key uid s :=
    match s.find? (fun r => decide (r.Name = uid)) with
    | some r => (.ok r, s)
    | none => (.error ErrKeyNotFound, s)
  NewAccount uid mnemonic bip39Passphrase hdPath algo s :=
    if s.any (fun r => decide (r.Name = uid)) then (.error ErrNameAlreadyExists, s)
    else
      match derive mnemonic bip39Passphrase hdPath algo with
      | .error err => (.error err, s)
      | .ok pk => (.ok ⟨uid, pk⟩, s ++ [⟨uid, pk⟩])
  Delete uid s :=
    if s.any (fun r => decide (r.Name = uid)) then
      (none, s.filter (fun r => !decide (r.Name = uid)))
    else (some ErrKeyNotFound, s)
  List s := (.ok s, s)

/-- The index that a path component starts with, read in decimal. -/
def indexOf (cs : List Char) : Nat :=
  (cs.takeWhile Char.isDigit).foldl (fun n c => 10 * n + (c.toNat - 48)) 0

/-- Whether every index of the path is a BIP-32 index, below `2 ^ 31`. -/
def pathInRange (hdPath : String) : Bool :=
  ((hdPath.toList.splitOn '/').drop 1).all (fun cs => decide (indexOf cs < 2 ^ 31))

/-- Modelled from the spec: the derivation inside the keyring, which is outside
this repository.  A mnemonic that fails validation is refused with
`InvalidMnemonic` (here: the empty one), and a path with a coin type out of
range with `InvalidCoinType`; otherwise the key material is a function of
mnemonic, passphrase and path only. -/
def demoDerive (mnemonic bip39Passphrase hdPath : String) (_algo : SignatureAlgo) :
    Except Error (List Nat) :=
  if mnemonic = "" then .error ErrInvalidMnemonic
  else if pathInRange hdPath then
    .ok ((mnemonic ++ bip39Passphrase ++ hdPath).toList.map Char.toNat)
  else .error ErrInvalidCoinType

/-- An address encoder for a human-readable part `hrp`: like
`sdk.Bech32ifyAddressBytes` it refuses an empty `hrp`. -/
def demoEncode (hrp : String) (addr : AccAddress) : Except Error String :=
  if hrp = "" then .error ErrEmptyHrp
  else .ok (hrp ++ "1" ++ String.mk (addr.map Char.ofNat))

/-- An entropy source that hands out the blocks of a finite supply. -/
def demoBip39 : Bip39 (List (List Nat)) where
  NewEntropy _bits r :=
    match r with
    | [] => (.error ErrEntropySource, [])
    | e :: rest => (.ok e, rest)
  NewMnemonic e := .ok (String.mk (e.map Char.ofNat))

/-- A client over the keyring in memory, with account prefix `hrp`. -/
def demoClient (hrp : String) : ChainClient (List Record) (List (List Nat)) where
  Config := ⟨"demo-1", "memory", "/home/keys"⟩
  New _ _ _ := .ok []
  Keybase := memKeyring demoDerive
  GetAddress r := .ok r.PubKey
  EncodeBech32AccAddr := demoEncode hrp
  bip39 := demoBip39

/-- A file system in which only the configured key directory exists. -/
def demoStat (path : String) : StatResult :=
  if path = "/home/keys" then StatResult.found else StatResult.errNotExist


/-- The keystore after restoring "a" and then "b". -/
def keystoreAB : List Record :=
  (RestoreKey (demoClient "cosmos") "b" "mb" 118
    (RestoreKey (demoClient "cosmos") "a" "ma" 118 ([], [])).2).2.1

/-- The keystore after restoring "b" and then "a". -/
def keystoreBA : List Record :=
  (RestoreKey (demoClient "cosmos") "a" "ma" 118
    (RestoreKey (demoClient "cosmos") "b" "mb" 118 ([], [])).2).2.1

/-- The record that restoring "a" stores. -/
def recordA : Record := ⟨"a", ("mam/44'/118'/0'/0/0").toList.map Char.toNat⟩

/-- The record that restoring "b" stores. -/
def recordB : Record := ⟨"b", ("mbm/44'/118'/0'/0/0").toList.map Char.toNat⟩

/-! ## Notions used in the statements -/

section Notions

variable {σ ρ : Type}

/-- The mnemonic `m` that `KeyAddOrRestore` works with, and the entropy source
`r1` it leaves: the first supplied mnemonic, the source untouched, or else the
mnemonic that `CreateMnemonic` returned. -/
def Chosen (cc : ChainClient σ ρ) (mnemonic : List String) (r : ρ) (m : String) (r1 : ρ) : Prop :=
  (∃ rest, mnemonic = m :: rest ∧ r1 = r) ∨
    (mnemonic = [] ∧ CreateMnemonic cc.bip39 r = (.ok m, r1))

/-- The address text of a record: `GetAddress`, then `EncodeBech32AccAddr`. -/
def addressOf (cc : ChainClient σ ρ) (k : Record) : Except Error String :=
  match cc.GetAddress k with
  | .error err => .error err
  | .ok address => cc.EncodeBech32AccAddr address

/-- Modelled from the spec: what the backing store, which is outside this
repository, answers for a name that has no record: the lookup fails, and
`Delete` "fails with `KeyNotFound` if absent; no side effect if never added". -/
structure AbsentIn (kb : Keyring σ) (name : String) (s : σ) : Prop where
  key_fails : ∃ err, kb.Key name s = (.error err, s)
  delete_fails : kb.Delete name s = (some ErrKeyNotFound, s)

/-- Modelled from the spec: the derivation inside the keyring, which is outside
this repository, is "a pure deterministic function": whenever `NewAccount`
succeeds for the same name, mnemonic, passphrase, path and algorithm, it returns
the same record, whatever the keystore holds. -/
def DeterministicDerivation (kb : Keyring σ) : Prop :=
  ∀ (uid mnemonic bip39Passphrase hdPath : String) (algo : SignatureAlgo) (s1 s2 t1 t2 : σ)
    (r1 r2 : Record),
    kb.NewAccount uid mnemonic bip39Passphrase hdPath algo s1 = (.ok r1, t1) →
    kb.NewAccount uid mnemonic bip39Passphrase hdPath algo s2 = (.ok r2, t2) → r1 = r2

/-- The record `k` has the address text `v`. -/
def Encoded (cc : ChainClient σ ρ) (k : Record) (v : String) : Prop :=
  ∃ addr, cc.GetAddress k = .ok addr ∧ cc.EncodeBech32AccAddr addr = .ok v

/-- Computing the address text of the record `k` fails with `err`, in
`GetAddress` or in `EncodeBech32AccAddr`. -/
def FailsWith (cc : ChainClient σ ρ) (k : Record) (err : Error) : Prop :=
  cc.GetAddress k = .error err ∨
    ∃ addr, cc.GetAddress k = .ok addr ∧ cc.EncodeBech32AccAddr addr = .error err

/-- Modelled from the spec: the keyring, which is outside this repository,
refuses a coin type that "is out of range", one that is no hardened BIP-44
index: for every coin type from `2 ^ 31` on, every name, mnemonic and keystore,
`NewAccount` on the path of that coin type returns an error and stores
nothing. -/
def RefusesOutOfRange (kb : Keyring σ) : Prop :=
  ∀ (coinType : Nat), 2 ^ 31 ≤ coinType → ∀ (uid mnemonic : String) (s : σ),
    ∃ err, kb.NewAccount uid mnemonic "" (CreateHDPath coinType 0 0).PathString
      SignatureAlgo.Secp256k1 s = (.error err, s)

end Notions

/-! ## Lemmas -/

section Lemmas

variable {σ ρ : Type}

theorem memKeyring_absent (derive) (s : List Record) (name : String)
    (h : ∀ r ∈ s, r.Name ≠ name) : AbsentIn (memKeyring derive) name s := by
  have hany : s.any (fun r => decide (r.Name = name)) = false := by
    rw [List.any_eq_false]
    intro r hr
    simpa using h r hr
  have hfind : s.find? (fun r => decide (r.Name = name)) = none := by
    rw [List.find?_eq_none]
    intro r hr
    simpa using h r hr
  constructor
  · exact ⟨ErrKeyNotFound, by simp [memKeyring, hfind]⟩
  · simpa [memKeyring] using h

theorem pathString_eq (coinType : Nat) :
    (CreateHDPath coinType 0 0).PathString =
      "m/44'/" ++ String.mk (Nat.toDigits 10 coinType) ++ "'/0'/0/0" := by
  apply String.ext
  have h44 : Nat.toDigits 10 44 = ['4', '4'] := by decide
  have h0 : Nat.toDigits 10 0 = ['0'] := by decide
  simp [CreateHDPath, BIP44Params.PathString, String.data_append, h44, h0]

theorem kar_createMnemonic_err (cc : ChainClient σ ρ) (k : String) (ct : Nat) (w : σ × ρ)
    (err : Error) (r1 : ρ) (h : CreateMnemonic cc.bip39 w.2 = (.error err, r1)) :
    KeyAddOrRestore cc k ct [] w = (.error err, (w.1, r1)) := by
  simp [KeyAddOrRestore, h]

theorem kar_newAccount_err (cc : ChainClient σ ρ) (k : String) (ct : Nat) (mn : List String)
    (w : σ × ρ) (m : String) (r1 : ρ) (err : Error) (s1 : σ) (hc : Chosen cc mn w.2 m r1)
    (h : cc.Keybase.NewAccount k m "" (CreateHDPath ct 0 0).PathString SignatureAlgo.Secp256k1 w.1
      = (.error err, s1)) :
    KeyAddOrRestore cc k ct mn w = (.error err, (s1, r1)) := by
  rcases hc with ⟨rest, rfl, rfl⟩ | ⟨rfl, hm⟩
  · simp [KeyAddOrRestore, h]
  · simp [KeyAddOrRestore, hm, h]

theorem kar_getAddress_err (cc : ChainClient σ ρ) (k : String) (ct : Nat) (mn : List String)
    (w : σ × ρ) (m : String) (r1 : ρ) (err : Error) (info : Record) (s1 : σ)
    (hc : Chosen cc mn w.2 m r1)
    (h : cc.Keybase.NewAccount k m "" (CreateHDPath ct 0 0).PathString SignatureAlgo.Secp256k1 w.1
      = (.ok info, s1))
    (hg : cc.GetAddress info = .error err) :
    KeyAddOrRestore cc k ct mn w = (.error err, (s1, r1)) := by
  rcases hc with ⟨rest, rfl, rfl⟩ | ⟨rfl, hm⟩
  · simp [KeyAddOrRestore, h, hg]
  · simp [KeyAddOrRestore, hm, h, hg]

theorem kar_encode_err (cc : ChainClient σ ρ) (k : String) (ct : Nat) (mn : List String)
    (w : σ × ρ) (m : String) (r1 : ρ) (err : Error) (info : Record) (s1 : σ) (addr : AccAddress)
    (hc : Chosen cc mn w.2 m r1)
    (h : cc.Keybase.NewAccount k m "" (CreateHDPath ct 0 0).PathString SignatureAlgo.Secp256k1 w.1
      = (.ok info, s1))
    (hg : cc.GetAddress info = .ok addr) (he : cc.EncodeBech32AccAddr addr = .error err) :
    KeyAddOrRestore cc k ct mn w = (.error err, (s1, r1)) := by
  rcases hc with ⟨rest, rfl, rfl⟩ | ⟨rfl, hm⟩
  · simp [KeyAddOrRestore, h, hg, he]
  · simp [KeyAddOrRestore, hm, h, hg, he]

theorem kar_ok (cc : ChainClient σ ρ) (k : String) (ct : Nat) (mn : List String)
    (w : σ × ρ) (m : String) (r1 : ρ) (info : Record) (s1 : σ) (addr : AccAddress) (out : String)
    (hc : Chosen cc mn w.2 m r1)
    (h : cc.Keybase.NewAccount k m "" (CreateHDPath ct 0 0).PathString SignatureAlgo.Secp256k1 w.1
      = (.ok info, s1))
    (hg : cc.GetAddress info = .ok addr) (he : cc.EncodeBech32AccAddr addr = .ok out) :
    KeyAddOrRestore cc k ct mn w = (.ok ⟨m, out⟩, (s1, r1)) := by
  rcases hc with ⟨rest, rfl, rfl⟩ | ⟨rfl, hm⟩
  · simp [KeyAddOrRestore, h, hg, he]
  · simp [KeyAddOrRestore, hm, h, hg, he]

/-- Either the mnemonic is chosen, or none was supplied and `CreateMnemonic` failed. -/
theorem chosen_or_failed (cc : ChainClient σ ρ) (mn : List String) (r : ρ) :
    (∃ m r1, Chosen cc mn r m r1) ∨
      (mn = [] ∧ ∃ err r1, CreateMnemonic cc.bip39 r = (.error err, r1)) := by
  cases mn with
  | cons m0 rest => exact Or.inl ⟨m0, r, Or.inl ⟨rest, rfl, rfl⟩⟩
  | nil =>
    rcases h : CreateMnemonic cc.bip39 r with ⟨e | m, r1⟩
    · exact Or.inr ⟨rfl, e, r1, rfl⟩
    · exact Or.inl ⟨m, r1, Or.inr ⟨rfl, h⟩⟩

theorem memKeyring_deterministic (derive : String → String → String → SignatureAlgo → Except Error (List Nat)) :
    DeterministicDerivation (memKeyring derive) := by
  intro uid m p path algo s1 s2 t1 t2 r1 r2 h1 h2
  simp only [memKeyring] at h1 h2
  split at h1
  · simp at h1
  · split at h2
    · simp at h2
    · rcases hd : derive m p path algo with e | pk
      · simp [hd] at h1
      · simp [hd] at h1 h2
        rw [← h1.1, ← h2.1]

/-- Run against the recording keyring, `KeyAddOrRestore` gives the same result
and keystore, and the journal gains exactly one `NewAccount` call. -/
theorem kar_journal (cc : ChainClient σ ρ) (k : String) (ct : Nat) (mn : List String)
    (s : σ) (j : List KeyringCall) (r : ρ) (m : String) (r1 : ρ) (hc : Chosen cc mn r m r1) :
    KeyAddOrRestore (withJournal cc) k ct mn ((s, j), r) =
      ((KeyAddOrRestore cc k ct mn (s, r)).1,
        (((KeyAddOrRestore cc k ct mn (s, r)).2.1,
          j ++ [KeyringCall.NewAccount k m "" (CreateHDPath ct 0 0).PathString
            SignatureAlgo.Secp256k1]),
         (KeyAddOrRestore cc k ct mn (s, r)).2.2)) := by
  have hc2 : Chosen (withJournal cc) mn r m r1 := hc
  rcases h : cc.Keybase.NewAccount k m "" (CreateHDPath ct 0 0).PathString
      SignatureAlgo.Secp256k1 s with ⟨e | info, s1⟩
  · rw [kar_newAccount_err cc k ct mn (s, r) m r1 e s1 hc h,
      kar_newAccount_err (withJournal cc) k ct mn ((s, j), r) m r1 e (s1, j ++ [KeyringCall.NewAccount k m "" (CreateHDPath ct 0 0).PathString
          SignatureAlgo.Secp256k1]) hc2
        (by simp [withJournal, recording, h])]
  · rcases hg : cc.GetAddress info with e | addr
    · rw [kar_getAddress_err cc k ct mn (s, r) m r1 e info s1 hc h hg,
        kar_getAddress_err (withJournal cc) k ct mn ((s, j), r) m r1 e info (s1, j ++ [KeyringCall.NewAccount k m "" (CreateHDPath ct 0 0).PathString
          SignatureAlgo.Secp256k1]) hc2
          (by simp [withJournal, recording, h]) hg]
    · rcases he : cc.EncodeBech32AccAddr addr with e | out
      · rw [kar_encode_err cc k ct mn (s, r) m r1 e info s1 addr hc h hg he,
          kar_encode_err (withJournal cc) k ct mn ((s, j), r) m r1 e info (s1, j ++ [KeyringCall.NewAccount k m "" (CreateHDPath ct 0 0).PathString
          SignatureAlgo.Secp256k1]) addr hc2
            (by simp [withJournal, recording, h]) hg he]
      · rw [kar_ok cc k ct mn (s, r) m r1 info s1 addr out hc h hg he,
          kar_ok (withJournal cc) k ct mn ((s, j), r) m r1 info (s1, j ++ [KeyringCall.NewAccount k m "" (CreateHDPath ct 0 0).PathString
          SignatureAlgo.Secp256k1]) addr out hc2
            (by simp [withJournal, recording, h]) hg he]

/-- On success the reported mnemonic is the chosen one. -/
theorem kar_ok_mnemonic (cc : ChainClient σ ρ) (k : String) (ct : Nat) (mn : List String)
    (w : σ × ρ) (m : String) (r1 : ρ) (hc : Chosen cc mn w.2 m r1) (ko : KeyOutput)
    (h : (KeyAddOrRestore cc k ct mn w).1 = .ok ko) : ko.Mnemonic = m := by
  rcases hn : cc.Keybase.NewAccount k m "" (CreateHDPath ct 0 0).PathString
      SignatureAlgo.Secp256k1 w.1 with ⟨e | info, s1⟩
  · rw [kar_newAccount_err cc k ct mn w m r1 e s1 hc hn] at h; simp at h
  · rcases hg : cc.GetAddress info with e | addr
    · rw [kar_getAddress_err cc k ct mn w m r1 e info s1 hc hn hg] at h; simp at h
    · rcases he : cc.EncodeBech32AccAddr addr with e | out
      · rw [kar_encode_err cc k ct mn w m r1 e info s1 addr hc hn hg he] at h; simp at h
      · rw [kar_ok cc k ct mn w m r1 info s1 addr out hc hn hg he] at h
        simp at h
        rw [← h]

/-- The keystore that `KeyAddOrRestore` leaves is the one `NewAccount` left. -/
theorem kar_keystore (cc : ChainClient σ ρ) (k : String) (ct : Nat) (mn : List String)
    (w : σ × ρ) (m : String) (r1 : ρ) (hc : Chosen cc mn w.2 m r1) :
    (KeyAddOrRestore cc k ct mn w).2 =
      ((cc.Keybase.NewAccount k m "" (CreateHDPath ct 0 0).PathString
        SignatureAlgo.Secp256k1 w.1).2, r1) := by
  rcases hn : cc.Keybase.NewAccount k m "" (CreateHDPath ct 0 0).PathString
      SignatureAlgo.Secp256k1 w.1 with ⟨e | info, s1⟩
  · rw [kar_newAccount_err cc k ct mn w m r1 e s1 hc hn]
  · rcases hg : cc.GetAddress info with e | addr
    · rw [kar_getAddress_err cc k ct mn w m r1 e info s1 hc hn hg]
    · rcases he : cc.EncodeBech32AccAddr addr with e | out
      · rw [kar_encode_err cc k ct mn w m r1 e info s1 addr hc hn hg he]
      · rw [kar_ok cc k ct mn w m r1 info s1 addr out hc hn hg he]

/-- The value of a digit character. -/
theorem digitChar_spec : ∀ k < 10, (Nat.digitChar k).isDigit = true ∧
    (Nat.digitChar k).toNat - 48 = k := by
  decide

/-- The digits that `Nat.toDigitsCore` puts in front of `ds` are decimal digits
and read back as the number. -/
theorem toDigitsCore_spec : ∀ (fuel n : Nat) (ds : List Char), n < fuel →
    ∃ l : List Char, Nat.toDigitsCore 10 fuel n ds = l ++ ds ∧
      (∀ c ∈ l, c.isDigit = true) ∧
      l.foldl (fun a c => 10 * a + (c.toNat - 48)) 0 = n := by
  intro fuel
  induction fuel with
  | zero => intro n ds h; omega
  | succ fuel ih =>
    intro n ds h
    have hd := digitChar_spec (n % 10) (Nat.mod_lt _ (by decide))
    unfold Nat.toDigitsCore
    by_cases h0 : n / 10 = 0
    · refine ⟨[Nat.digitChar (n % 10)], by simp [h0], ?_, ?_⟩
      · intro c hc
        rw [List.mem_singleton] at hc
        rw [hc]; exact hd.1
      · simp only [List.foldl_cons, List.foldl_nil]
        rw [hd.2]
        omega
    · have hlt : n / 10 < fuel := by omega
      obtain ⟨l, hl, hdig, hval⟩ := ih (n / 10) (Nat.digitChar (n % 10) :: ds) hlt
      refine ⟨l ++ [Nat.digitChar (n % 10)], by simp [h0, hl], ?_, ?_⟩
      · intro c hc
        rcases List.mem_append.1 hc with hc | hc
        · exact hdig c hc
        · rw [List.mem_singleton] at hc
          rw [hc]; exact hd.1
      · rw [List.foldl_append, hval]
        simp only [List.foldl_cons, List.foldl_nil]
        rw [hd.2]
        omega

theorem toDigits_spec (n : Nat) :
    (∀ c ∈ Nat.toDigits 10 n, c.isDigit = true) ∧
      (Nat.toDigits 10 n).foldl (fun a c => 10 * a + (c.toNat - 48)) 0 = n := by
  obtain ⟨l, hl, hdig, hval⟩ := toDigitsCore_spec (n + 1) n [] (Nat.lt_succ_self n)
  rw [List.append_nil] at hl
  unfold Nat.toDigits
  rw [hl]
  exact ⟨hdig, hval⟩

theorem takeWhile_append_stop {α : Type} (p : α → Bool) (l : List α) (a : α) (r : List α)
    (hl : ∀ x ∈ l, p x = true) (ha : p a = false) : (l ++ a :: r).takeWhile p = l := by
  induction l with
  | nil => simp [List.takeWhile, ha]
  | cons x l ih =>
    have hx := hl x (List.mem_cons_self _ _)
    simp only [List.cons_append, List.takeWhile_cons, hx, if_true]
    rw [ih (fun y hy => hl y (List.mem_cons_of_mem _ hy))]

/-- The component of the coin type, read back as an index, is the coin type. -/
theorem indexOf_coinType (n : Nat) (r : List Char) :
    indexOf (Nat.toDigits 10 n ++ Char.ofNat 39 :: r) = n := by
  unfold indexOf
  rw [takeWhile_append_stop Char.isDigit _ _ _ (toDigits_spec n).1 (by decide)]
  exact (toDigits_spec n).2

/-- The path of a coin type from `2 ^ 31` on is out of range. -/
theorem pathInRange_false (coinType : Nat) (h : 2 ^ 31 ≤ coinType) :
    pathInRange (CreateHDPath coinType 0 0).PathString = false := by
  have hnd : ∀ x ∈ Nat.toDigits 10 coinType ++ [Char.ofNat 39], ¬ ((x == '/') = true) := by
    intro x hx
    rcases List.mem_append.1 hx with hx | hx
    · have := (toDigits_spec coinType).1 x hx
      intro hs
      have hx' : x = '/' := by simpa using hs
      rw [hx'] at this
      exact absurd this (by decide)
    · rw [List.mem_singleton] at hx
      rw [hx]; decide
  have hlist : (CreateHDPath coinType 0 0).PathString.toList =
      ['m'] ++ '/' :: (['4', '4', Char.ofNat 39] ++ '/' ::
        ((Nat.toDigits 10 coinType ++ [Char.ofNat 39]) ++ '/' ::
          ['0', Char.ofNat 39, '/', '0', '/', '0'])) := by
    rw [pathString_eq]
    simp [String.toList, String.data_append]
  unfold pathInRange
  have h1 : ∀ x ∈ ['m'], ¬ ((x == '/') = true) := by decide
  have h2 : ∀ x ∈ ['4', '4', Char.ofNat 39], ¬ ((x == '/') = true) := by decide
  rw [hlist, List.splitOn,
    List.splitOnP_first (fun x => x == '/') _ h1 '/' (by decide),
    List.splitOnP_first (fun x => x == '/') _ h2 '/' (by decide),
    List.splitOnP_first (fun x => x == '/') _ hnd '/' (by decide)]
  simp only [List.drop_succ_cons, List.drop_zero, List.all_cons, Bool.and_eq_false_iff]
  right; left
  rw [indexOf_coinType]
  simpa using h

/-- The keyring in memory refuses every coin type out of range. -/
theorem memKeyring_refuses : RefusesOutOfRange (memKeyring demoDerive) := by
  intro coinType h uid mnemonic s
  have hp := pathInRange_false coinType h
  simp only [memKeyring, demoDerive, hp]
  by_cases hany : s.any (fun r => decide (r.Name = uid)) = true
  · exact ⟨ErrNameAlreadyExists, by simp [hany]⟩
  · by_cases hm : mnemonic = ""
    · exact ⟨ErrInvalidMnemonic, by simp [hany, hm]⟩
    · exact ⟨ErrInvalidCoinType, by simp [hany, hm]⟩

/-- With a mnemonic supplied, `KeyAddOrRestore` does not depend on package `bip39`. -/
theorem kar_supplied_bip39 (cc : ChainClient σ ρ) (b : Bip39 ρ) (k : String) (ct : Nat)
    (m0 : String) (rest : List String) (w : σ × ρ) :
    KeyAddOrRestore { cc with bip39 := b } k ct (m0 :: rest) w =
      KeyAddOrRestore cc k ct (m0 :: rest) w := rfl

/-- Only the first supplied mnemonic is read. -/
theorem kar_supplied_first (cc : ChainClient σ ρ) (k : String) (ct : Nat)
    (m0 : String) (rest : List String) (w : σ × ρ) :
    KeyAddOrRestore cc k ct (m0 :: rest) w = KeyAddOrRestore cc k ct [m0] w := rfl

/-- When `CreateMnemonic` fails, the recording keyring is not called. -/
theorem kar_journal_createMnemonic_err (cc : ChainClient σ ρ) (k : String) (ct : Nat)
    (s : σ) (j : List KeyringCall) (r : ρ) (err : Error) (r1 : ρ)
    (h : CreateMnemonic cc.bip39 r = (.error err, r1)) :
    KeyAddOrRestore (withJournal cc) k ct [] ((s, j), r) = (.error err, ((s, j), r1)) :=
  kar_createMnemonic_err (withJournal cc) k ct ((s, j), r) err r1 h

theorem loop_cons (cc : ChainClient σ ρ) (k : Record) (rest : List Record) (out : GoMap) :
    ListAddresses.loop cc (k :: rest) out =
      match addressOf cc k with
      | .error err => .error err
      | .ok v => ListAddresses.loop cc rest (out.insert k.Name v) := by
  unfold addressOf
  rw [ListAddresses.loop]
  rcases cc.GetAddress k with e | a
  · rfl
  · rcases cc.EncodeBech32AccAddr a with e | v <;> rfl

theorem loop_ok_of_all (cc : ChainClient σ ρ) (rs : List Record) :
    ∀ out : GoMap, (∀ k ∈ rs, ∃ v, addressOf cc k = .ok v) →
      ∃ m, ListAddresses.loop cc rs out = .ok m := by
  induction rs with
  | nil => intro out _; exact ⟨out, rfl⟩
  | cons k rest ih =>
    intro out h
    obtain ⟨v, hv⟩ := h k (List.mem_cons_self _ _)
    rw [loop_cons, hv]
    exact ih _ (fun k' hk' => h k' (List.mem_cons_of_mem _ hk'))

theorem loop_first_error (cc : ChainClient σ ρ) (pre : List Record) (k : Record)
    (post : List Record) (err : Error) (hk : addressOf cc k = .error err) :
    ∀ out : GoMap, (∀ p ∈ pre, ∃ v, addressOf cc p = .ok v) →
      ListAddresses.loop cc (pre ++ k :: post) out = .error err := by
  induction pre with
  | nil => intro out _; rw [List.nil_append, loop_cons, hk]
  | cons p pre ih =>
    intro out h
    obtain ⟨v, hv⟩ := h p (List.mem_cons_self _ _)
    rw [List.cons_append, loop_cons, hv]
    exact ih _ (fun q hq => h q (List.mem_cons_of_mem _ hq))

theorem loop_lookup (cc : ChainClient σ ρ) (rs : List Record) :
    ∀ (out m : GoMap), (rs.map Record.Name).Nodup → ListAddresses.loop cc rs out = .ok m →
      (∀ k ∈ rs, ∃ v, addressOf cc k = .ok v ∧ m.lookup k.Name = some v) ∧
      (∀ n, (∀ k ∈ rs, k.Name ≠ n) → m.lookup n = out.lookup n) := by
  induction rs with
  | nil =>
    intro out m _ h
    simp only [ListAddresses.loop, Except.ok.injEq] at h
    subst h
    exact ⟨fun k hk => absurd hk (List.not_mem_nil _), fun _ _ => rfl⟩
  | cons k rest ih =>
    intro out m hnd h
    rw [loop_cons] at h
    rw [List.map_cons, List.nodup_cons] at hnd
    rcases hv : addressOf cc k with e | v
    · rw [hv] at h; simp at h
    · rw [hv] at h
      obtain ⟨h1, h2⟩ := ih _ m hnd.2 h
      have hne : ∀ k' ∈ rest, k'.Name ≠ k.Name := by
        intro k' hk' heq
        exact hnd.1 (heq ▸ List.mem_map_of_mem Record.Name hk')
      refine ⟨?_, ?_⟩
      · intro k' hk'
        rcases List.mem_cons.1 hk' with rfl | hk'
        · exact ⟨v, hv, by rw [h2 _ hne, Finmap.lookup_insert]⟩
        · exact h1 k' hk'
      · intro n hn
        rw [h2 n (fun k' hk' => hn k' (List.mem_cons_of_mem _ hk'))]
        exact Finmap.lookup_insert_of_ne _ (fun h' => hn k (List.mem_cons_self _ _) h'.symm)

theorem loop_keys (cc : ChainClient σ ρ) (rs : List Record) (m : GoMap)
    (hnd : (rs.map Record.Name).Nodup) (h : ListAddresses.loop cc rs ∅ = .ok m) :
    m.keys = (rs.map Record.Name).toFinset := by
  obtain ⟨h1, h2⟩ := loop_lookup cc rs ∅ m hnd h
  ext n
  rw [Finmap.mem_keys, List.mem_toFinset, List.mem_map]
  constructor
  · intro hn
    by_contra hc
    have : m.lookup n = none := by
      rw [h2 n (fun k hk heq => hc ⟨k, hk, heq⟩)]
      exact Finmap.lookup_empty n
    exact (Finmap.lookup_eq_none.1 this) hn
  · rintro ⟨k, hk, rfl⟩
    obtain ⟨v, _, hv⟩ := h1 k hk
    exact Finmap.mem_of_lookup_eq_some hv

/-- The map built by the loop does not depend on the order of the records. -/
theorem loop_perm (cc : ChainClient σ ρ) (rs rs' : List Record) (m : GoMap)
    (hp : rs.Perm rs') (hnd : (rs.map Record.Name).Nodup)
    (h : ListAddresses.loop cc rs ∅ = .ok m) : ListAddresses.loop cc rs' ∅ = .ok m := by
  obtain ⟨h1, h2⟩ := loop_lookup cc rs ∅ m hnd h
  have hnd' : (rs'.map Record.Name).Nodup := (hp.map Record.Name).nodup_iff.1 hnd
  obtain ⟨m', hm'⟩ := loop_ok_of_all cc rs' ∅ (fun k hk => by
    obtain ⟨v, hv, _⟩ := h1 k (hp.mem_iff.2 hk)
    exact ⟨v, hv⟩)
  obtain ⟨h1', h2'⟩ := loop_lookup cc rs' ∅ m' hnd' hm'
  rw [hm']
  congr 1
  apply Finmap.ext_lookup
  intro n
  by_cases hn : ∃ k ∈ rs, k.Name = n
  · obtain ⟨k, hk, rfl⟩ := hn
    obtain ⟨v, hv, hl⟩ := h1 k hk
    obtain ⟨v', hv', hl'⟩ := h1' k (hp.mem_iff.1 hk)
    rw [hv] at hv'
    have : v = v' := by simpa using hv'
    rw [hl, hl', this]
  · have hn1 : ∀ k ∈ rs, k.Name ≠ n := fun k hk heq => hn ⟨k, hk, heq⟩
    have hn2 : ∀ k ∈ rs', k.Name ≠ n := fun k hk heq => hn ⟨k, hp.mem_iff.2 hk, heq⟩
    rw [h2 n hn1, h2' n hn2]

/-- On the keyring in memory, `ListAddresses` is the loop over the keystore. -/
theorem listAddresses_mem (hrp : String) (s : List Record) :
    (ListAddresses (demoClient hrp) s).1 = ListAddresses.loop (demoClient hrp) s ∅ := rfl

theorem addressOf_ok_iff (cc : ChainClient σ ρ) (k : Record) (v : String) :
    addressOf cc k = .ok v ↔ Encoded cc k v := by
  unfold addressOf Encoded
  rcases cc.GetAddress k with e | a <;> simp

theorem addressOf_error_iff (cc : ChainClient σ ρ) (k : Record) (err : Error) :
    addressOf cc k = .error err ↔ FailsWith cc k err := by
  unfold addressOf FailsWith
  rcases cc.GetAddress k with e | a <;> simp

theorem loop_error_of_exists (cc : ChainClient σ ρ) (rs : List Record) :
    ∀ out : GoMap, (∃ k ∈ rs, ∃ e, addressOf cc k = .error e) →
      ∃ err, ListAddresses.loop cc rs out = .error err ∧
        ∃ k ∈ rs, addressOf cc k = .error err := by
  induction rs with
  | nil => rintro out ⟨k, hk, _⟩; exact absurd hk (List.not_mem_nil _)
  | cons k rest ih =>
    rintro out ⟨k', hk', e, he⟩
    rw [loop_cons]
    rcases hv : addressOf cc k with e0 | v
    · exact ⟨e0, rfl, k, List.mem_cons_self _ _, hv⟩
    · rcases List.mem_cons.1 hk' with rfl | hk'
      · rw [hv] at he; simp at he
      · obtain ⟨err, h1, k2, hk2, h2⟩ := ih (out.insert k.Name v) ⟨k', hk', e, he⟩
        exact ⟨err, h1, k2, List.mem_cons_of_mem _ hk2, h2⟩

/-! ## The claims -/

/-- Claim C3: `KeyExists` returns a boolean and no error.  Whenever the lookup
`Keybase.Key name` returns an error, whatever the error, `KeyExists name` is
false; when the lookup succeeds with the record `k`, `KeyExists name` is true
exactly when `k.Name = name`. -/
theorem KeyExists_spec (cc : ChainClient σ ρ) (name : String) (s : σ) :
    (∀ err s1, cc.Keybase.Key name s = (.error err, s1) → KeyExists cc name s = (false, s1)) ∧
    (∀ k s1, cc.Keybase.Key name s = (.ok k, s1) →
      (KeyExists cc name s).2 = s1 ∧ ((KeyExists cc name s).1 = true ↔ k.Name = name)) := by
  refine ⟨?_, ?_⟩
  · intro err s1 h
    simp [KeyExists, h]
  · intro k s1 h
    simp [KeyExists, h]

/-- The statement of C3 at the keyring in memory: an absent name, and a stored one. -/
theorem KeyExists_spec_witness :
    KeyExists (demoClient "cosmos") "carol" [] = (false, []) ∧
    ((KeyExists (demoClient "cosmos") "alice" [⟨"alice", [1]⟩]).1 = true ↔ "alice" = "alice") :=
  ⟨(KeyExists_spec (demoClient "cosmos") "carol" []).1 ErrKeyNotFound [] (by decide),
   ((KeyExists_spec (demoClient "cosmos") "alice" [⟨"alice", [1]⟩]).2 ⟨"alice", [1]⟩ [⟨"alice", [1]⟩]
      (by decide)).2⟩

/-- Claim C4 fails as stated: with the key directory `/home/keys` existing and the
keyring opened, `KeystoreCreated "/nowhere"` is true although nothing exists at
`/nowhere`, and it equals `KeystoreCreated "/home/keys"`. -/
theorem KeystoreCreated_path_counterexample :
    demoStat "/nowhere" = StatResult.errNotExist ∧
    KeystoreCreated demoStat (demoClient "cosmos") "/nowhere" (some []) = true ∧
    KeystoreCreated demoStat (demoClient "cosmos") "/home/keys" (some []) =
      KeystoreCreated demoStat (demoClient "cosmos") "/nowhere" (some []) := by
  decide

/-- Claim C4, amended: `KeystoreCreated path` does not read `path`.  It is true
exactly when `os.Stat` of the configured key directory does not report
`ErrNotExist` and `cc.Keybase` is not nil, and two calls on the same client with
different `path` arguments return the same result. -/
theorem KeystoreCreated_spec (stat : String → StatResult) (cc : ChainClient σ ρ)
    (keybase : Option σ) (path : String) :
    (KeystoreCreated stat cc path keybase = true ↔
      stat cc.Config.KeyDirectory ≠ StatResult.errNotExist ∧ keybase ≠ none) ∧
    (∀ path2 : String, KeystoreCreated stat cc path2 keybase = KeystoreCreated stat cc path keybase) := by
  refine ⟨?_, fun _ => rfl⟩
  unfold KeystoreCreated
  cases keybase <;> by_cases h : stat cc.Config.KeyDirectory = StatResult.errNotExist <;> simp [h]

/-- Claim C8: for a keystore and a name that has no record in it, `DeleteKey name`
returns the `KeyNotFound` error of `Keybase.Delete` unchanged and leaves the
keystore as it was, and `KeyExists name` is false before and after the call;
for every name and keystore `DeleteKey` returns what `Keybase.Delete` returns,
so it returns nil exactly when `Keybase.Delete` does. -/
theorem DeleteKey_absent (cc : ChainClient σ ρ) (name : String) (s : σ)
    (h : AbsentIn cc.Keybase name s) :
    DeleteKey cc name s = (some ErrKeyNotFound, s) ∧
    DeleteKey cc name s = cc.Keybase.Delete name s ∧
    (KeyExists cc name s).1 = false ∧
    (KeyExists cc name (DeleteKey cc name s).2).1 = false ∧
    (∀ n t, (DeleteKey cc n t).1 = none ↔ (cc.Keybase.Delete n t).1 = none) ∧
    (∀ n t, DeleteKey cc n t = cc.Keybase.Delete n t) := by
  have hpass : ∀ n t, DeleteKey cc n t = cc.Keybase.Delete n t := by
    intro n t
    unfold DeleteKey
    rcases hd : cc.Keybase.Delete n t with ⟨_ | e, t1⟩ <;> simp
  obtain ⟨err, hk⟩ := h.key_fails
  have hd := h.delete_fails
  have hex : (KeyExists cc name s).1 = false := by simp [KeyExists, hk]
  refine ⟨by rw [hpass, hd], hpass _ _, hex, ?_, ?_, hpass⟩
  · rw [hpass, hd]; exact hex
  · intro n t; rw [hpass]

/-- The statement of C8 at the keyring in memory, for a name never added. -/
theorem DeleteKey_absent_witness :
    DeleteKey (demoClient "cosmos") "carol" [⟨"alice", [1]⟩] = (some ErrKeyNotFound, [⟨"alice", [1]⟩]) :=
  (DeleteKey_absent (demoClient "cosmos") "carol" [⟨"alice", [1]⟩]
    (memKeyring_absent demoDerive [⟨"alice", [1]⟩] "carol" (by decide))).1

/-- Claim C1 fails as stated: with an empty account prefix `EncodeBech32AccAddr`
fails after `Keybase.NewAccount` has stored the record, so `KeyAddOrRestore`,
`RestoreKey` and `AddKey` return an error and the keystore, empty before the
call, afterwards holds a record named `alice`. -/
theorem KeyAddOrRestore_no_rollback_counterexample :
    (KeyAddOrRestore (demoClient "") "alice" 118 ["ab"] ([], [])).1 = .error ErrEmptyHrp ∧
    ((KeyAddOrRestore (demoClient "") "alice" 118 ["ab"] ([], [])).2.1).map Record.Name
      = ["alice"] ∧
    (RestoreKey (demoClient "") "alice" "ab" 118 ([], [])).1 = .error ErrEmptyHrp ∧
    ((RestoreKey (demoClient "") "alice" "ab" 118 ([], [])).2.1).map Record.Name = ["alice"] ∧
    (AddKey (demoClient "") "alice" 118 ([], [[104, 105]])).1 = .error ErrEmptyHrp ∧
    ((AddKey (demoClient "") "alice" 118 ([], [[104, 105]])).2.1).map Record.Name = ["alice"] := by
  decide

/-- Claim C1, amended: when `KeyAddOrRestore` returns the error `err`, the keystore
is as the last keyring call left it, without any rollback.  Either no mnemonic
was supplied, `CreateMnemonic` failed with `err` and the keystore is untouched;
or the keystore is the one `Keybase.NewAccount` left, and `err` is the error of
`NewAccount`, or `NewAccount` succeeded with a record and `err` is the error of
`GetAddress` or of `EncodeBech32AccAddr` for that record. -/
theorem KeyAddOrRestore_failure_keystore (cc : ChainClient σ ρ) (keyName : String)
    (coinType : Nat) (mnemonic : List String) (w : σ × ρ) (err : Error)
    (h : (KeyAddOrRestore cc keyName coinType mnemonic w).1 = .error err) :
    (mnemonic = [] ∧ (CreateMnemonic cc.bip39 w.2).1 = .error err ∧
      (KeyAddOrRestore cc keyName coinType mnemonic w).2.1 = w.1) ∨
    (∃ m r1, Chosen cc mnemonic w.2 m r1 ∧
      (KeyAddOrRestore cc keyName coinType mnemonic w).2.1 =
        (cc.Keybase.NewAccount keyName m "" (CreateHDPath coinType 0 0).PathString
          SignatureAlgo.Secp256k1 w.1).2 ∧
      ((cc.Keybase.NewAccount keyName m "" (CreateHDPath coinType 0 0).PathString
          SignatureAlgo.Secp256k1 w.1).1 = .error err ∨
        ∃ info, (cc.Keybase.NewAccount keyName m "" (CreateHDPath coinType 0 0).PathString
            SignatureAlgo.Secp256k1 w.1).1 = .ok info ∧
          (cc.GetAddress info = .error err ∨
            ∃ addr, cc.GetAddress info = .ok addr ∧
              cc.EncodeBech32AccAddr addr = .error err))) := by
  rcases chosen_or_failed cc mnemonic w.2 with ⟨m, r1, hc⟩ | ⟨rfl, e, r1, hm⟩
  · right
    refine ⟨m, r1, hc, by rw [kar_keystore cc keyName coinType mnemonic w m r1 hc], ?_⟩
    rcases hn : cc.Keybase.NewAccount keyName m "" (CreateHDPath coinType 0 0).PathString
        SignatureAlgo.Secp256k1 w.1 with ⟨e | info, s1⟩
    · rw [kar_newAccount_err cc keyName coinType mnemonic w m r1 e s1 hc hn] at h
      left; simpa using h
    · right
      refine ⟨info, rfl, ?_⟩
      rcases hg : cc.GetAddress info with e | addr
      · rw [kar_getAddress_err cc keyName coinType mnemonic w m r1 e info s1 hc hn hg] at h
        left; simpa using h
      · right
        refine ⟨addr, rfl, ?_⟩
        rcases he : cc.EncodeBech32AccAddr addr with e | out
        · rw [kar_encode_err cc keyName coinType mnemonic w m r1 e info s1 addr hc hn hg he] at h
          simpa using h
        · rw [kar_ok cc keyName coinType mnemonic w m r1 info s1 addr out hc hn hg he] at h
          simp at h
  · left
    rw [kar_createMnemonic_err cc keyName coinType w e r1 hm] at h ⊢
    rw [hm]
    have he : e = err := by simpa using h
    subst he
    exact ⟨rfl, rfl, rfl⟩

/-- The statement of the amended C1 at the failing encoder of an empty prefix. -/
theorem KeyAddOrRestore_failure_keystore_witness :
    (KeyAddOrRestore (demoClient "") "alice" 118 ["ab"] ([], [])).1 = .error ErrEmptyHrp ∧
    ((["ab"] = ([] : List String) ∧
      (CreateMnemonic (demoClient "").bip39 ([] : List (List Nat))).1 = .error ErrEmptyHrp ∧
      (KeyAddOrRestore (demoClient "") "alice" 118 ["ab"] ([], [])).2.1 = []) ∨
    (∃ m r1, Chosen (demoClient "") ["ab"] ([] : List (List Nat)) m r1 ∧
      (KeyAddOrRestore (demoClient "") "alice" 118 ["ab"] ([], [])).2.1 =
        ((demoClient "").Keybase.NewAccount "alice" m "" (CreateHDPath 118 0 0).PathString
          SignatureAlgo.Secp256k1 []).2 ∧
      (((demoClient "").Keybase.NewAccount "alice" m "" (CreateHDPath 118 0 0).PathString
          SignatureAlgo.Secp256k1 []).1 = .error ErrEmptyHrp ∨
        ∃ info, ((demoClient "").Keybase.NewAccount "alice" m "" (CreateHDPath 118 0 0).PathString
            SignatureAlgo.Secp256k1 []).1 = .ok info ∧
          ((demoClient "").GetAddress info = .error ErrEmptyHrp ∨
            ∃ addr, (demoClient "").GetAddress info = .ok addr ∧
              (demoClient "").EncodeBech32AccAddr addr = .error ErrEmptyHrp)))) :=
  ⟨by decide,
    KeyAddOrRestore_failure_keystore (demoClient "") "alice" 118 ["ab"] ([], []) ErrEmptyHrp
      (by decide)⟩

/-- Claim C5: over a keyring that refuses a coin type out of range, for every
name and mnemonic and every coin type that is no hardened BIP-44 index, from
`2 ^ 31` on, `KeyAddOrRestore` returns an error and the keystore is unchanged,
so no key record is created; the same holds of `AddKey` and `RestoreKey`. -/
theorem KeyAddOrRestore_coinType_out_of_range (cc : ChainClient σ ρ)
    (hkb : RefusesOutOfRange cc.Keybase) (keyName : String) (coinType : Nat)
    (hct : 2 ^ 31 ≤ coinType) (mnemonic : List String) (w : σ × ρ) :
    ((∃ err, (KeyAddOrRestore cc keyName coinType mnemonic w).1 = .error err) ∧
      (KeyAddOrRestore cc keyName coinType mnemonic w).2.1 = w.1) ∧
    ((∃ err, (AddKey cc keyName coinType w).1 = .error err) ∧
      (AddKey cc keyName coinType w).2.1 = w.1) ∧
    (∀ m, (∃ err, (RestoreKey cc keyName m coinType w).1 = .error err) ∧
      (RestoreKey cc keyName m coinType w).2.1 = w.1) := by
  have key : ∀ mn : List String,
      ∃ err w1, KeyAddOrRestore cc keyName coinType mn w = (.error err, w1) ∧ w1.1 = w.1 := by
    intro mn
    rcases chosen_or_failed cc mn w.2 with ⟨m, r1, hc⟩ | ⟨rfl, e, r1, hm⟩
    · obtain ⟨err, hn⟩ := hkb coinType hct keyName m w.1
      exact ⟨err, (w.1, r1), kar_newAccount_err cc keyName coinType mn w m r1 err w.1 hc hn, rfl⟩
    · exact ⟨e, (w.1, r1), kar_createMnemonic_err cc keyName coinType w e r1 hm, rfl⟩
  refine ⟨?_, ?_, ?_⟩
  · obtain ⟨err, w1, h, hw⟩ := key mnemonic
    rw [h]
    exact ⟨⟨err, rfl⟩, hw⟩
  · obtain ⟨err, w1, h, hw⟩ := key []
    unfold AddKey
    rw [h]
    exact ⟨⟨err, rfl⟩, hw⟩
  · intro m
    obtain ⟨err, w1, h, hw⟩ := key [m]
    unfold RestoreKey
    rw [h]
    exact ⟨⟨err, rfl⟩, hw⟩

/-- The statement of C5 at the keyring in memory, for the coin type `2 ^ 31`;
the error there is `InvalidCoinType`. -/
theorem KeyAddOrRestore_coinType_out_of_range_witness :
    RefusesOutOfRange (demoClient "cosmos").Keybase ∧ 2 ^ 31 ≤ 2147483648 ∧
    (KeyAddOrRestore (demoClient "cosmos") "alice" 2147483648 ["ab"] ([], [])).1 =
      .error ErrInvalidCoinType ∧
    ((∃ err, (KeyAddOrRestore (demoClient "cosmos") "alice" 2147483648 ["ab"] ([], [])).1 =
        .error err) ∧
      (KeyAddOrRestore (demoClient "cosmos") "alice" 2147483648 ["ab"] ([], [])).2.1 = []) ∧
    ((∃ err, (AddKey (demoClient "cosmos") "alice" 2147483648 ([], [])).1 = .error err) ∧
      (AddKey (demoClient "cosmos") "alice" 2147483648 ([], [])).2.1 = []) ∧
    ((∃ err, (RestoreKey (demoClient "cosmos") "alice" "ab" 2147483648 ([], [])).1 =
        .error err) ∧
      (RestoreKey (demoClient "cosmos") "alice" "ab" 2147483648 ([], [])).2.1 = []) :=
  have h := KeyAddOrRestore_coinType_out_of_range (demoClient "cosmos") memKeyring_refuses
    "alice" 2147483648 (by decide) ["ab"] ([], [])
  ⟨memKeyring_refuses, by decide, by decide, h.1, h.2.1, h.2.2 "ab"⟩

/-- Claim C6: for every key name, coin type and mnemonic that `KeyAddOrRestore`
works with, supplied or generated, the keyring is called exactly once, and the
call is `NewAccount` with the key name, that mnemonic, the empty passphrase, the
path `m/44'/coinType'/0'/0/0` with the coin type in decimal, and secp256k1.
Recording the calls changes neither the result nor the keystore. -/
theorem KeyAddOrRestore_calls_NewAccount_once (cc : ChainClient σ ρ) (keyName : String)
    (coinType : Nat) (mnemonic : List String) (s : σ) (r : ρ) (m : String) (r1 : ρ)
    (hc : Chosen cc mnemonic r m r1) :
    (KeyAddOrRestore (withJournal cc) keyName coinType mnemonic ((s, []), r)).2.1.2 =
      [KeyringCall.NewAccount keyName m ""
        ("m/44'/" ++ String.mk (Nat.toDigits 10 coinType) ++ "'/0'/0/0")
        SignatureAlgo.Secp256k1] ∧
    (KeyAddOrRestore (withJournal cc) keyName coinType mnemonic ((s, []), r)).1 =
      (KeyAddOrRestore cc keyName coinType mnemonic (s, r)).1 ∧
    (KeyAddOrRestore (withJournal cc) keyName coinType mnemonic ((s, []), r)).2.1.1 =
      (KeyAddOrRestore cc keyName coinType mnemonic (s, r)).2.1 := by
  rw [kar_journal cc keyName coinType mnemonic s [] r m r1 hc, pathString_eq]
  exact ⟨rfl, rfl, rfl⟩

/-- The statement of C6 for the coin type 118 and two supplied mnemonics. -/
theorem KeyAddOrRestore_calls_NewAccount_once_witness :
    Chosen (demoClient "cosmos") ["ab", "cd"] [] "ab" [] ∧
    (KeyAddOrRestore (withJournal (demoClient "cosmos")) "alice" 118 ["ab", "cd"]
        (([], []), [])).2.1.2 =
      [KeyringCall.NewAccount "alice" "ab" ""
        ("m/44'/" ++ String.mk (Nat.toDigits 10 118) ++ "'/0'/0/0")
        SignatureAlgo.Secp256k1] ∧
    "m/44'/" ++ String.mk (Nat.toDigits 10 118) ++ "'/0'/0/0" = "m/44'/118'/0'/0/0" :=
  ⟨Or.inl ⟨["cd"], rfl, rfl⟩,
    (KeyAddOrRestore_calls_NewAccount_once (demoClient "cosmos") "alice" 118 ["ab", "cd"]
      [] [] "ab" [] (Or.inl ⟨["cd"], rfl, rfl⟩)).1,
    by decide⟩

/-- Claim C9: over a keyring whose derivation is deterministic, two calls of
`RestoreKey` with the same name, mnemonic and coin type that yield an address
yield the same address, whatever the keystore and the entropy source hold at
either call; and `RestoreKey` leaves the entropy source untouched. -/
theorem RestoreKey_deterministic (cc : ChainClient σ ρ) (hdet : DeterministicDerivation cc.Keybase)
    (name mnemonic : String) (coinType : Nat) (w1 w2 : σ × ρ) :
    (∀ a1 a2, (RestoreKey cc name mnemonic coinType w1).1 = .ok a1 →
      (RestoreKey cc name mnemonic coinType w2).1 = .ok a2 → a1 = a2) ∧
    (RestoreKey cc name mnemonic coinType w1).2.2 = w1.2 ∧
    (RestoreKey cc name mnemonic coinType w2).2.2 = w2.2 := by
  have hc : ∀ w : σ × ρ, Chosen cc [mnemonic] w.2 mnemonic w.2 := fun w => Or.inl ⟨[], rfl, rfl⟩
  have hstate : ∀ w : σ × ρ, (RestoreKey cc name mnemonic coinType w).2.2 = w.2 := by
    intro w
    have := kar_keystore cc name coinType [mnemonic] w mnemonic w.2 (hc w)
    unfold RestoreKey
    rcases hk : KeyAddOrRestore cc name coinType [mnemonic] w with ⟨e | ko, w'⟩
    · simp [hk] at this ⊢; rw [this]
    · simp [hk] at this ⊢; rw [this]
  have hres : ∀ (w : σ × ρ) (a : String), (RestoreKey cc name mnemonic coinType w).1 = .ok a →
      ∃ info s1 addr, cc.Keybase.NewAccount name mnemonic "" (CreateHDPath coinType 0 0).PathString
        SignatureAlgo.Secp256k1 w.1 = (.ok info, s1) ∧ cc.GetAddress info = .ok addr ∧
        cc.EncodeBech32AccAddr addr = .ok a := by
    intro w a h
    unfold RestoreKey at h
    rcases hn : cc.Keybase.NewAccount name mnemonic "" (CreateHDPath coinType 0 0).PathString
        SignatureAlgo.Secp256k1 w.1 with ⟨e | info, s1⟩
    · rw [kar_newAccount_err cc name coinType [mnemonic] w mnemonic w.2 e s1 (hc w) hn] at h
      simp at h
    · rcases hg : cc.GetAddress info with e | addr
      · rw [kar_getAddress_err cc name coinType [mnemonic] w mnemonic w.2 e info s1 (hc w) hn hg] at h
        simp at h
      · rcases he : cc.EncodeBech32AccAddr addr with e | out
        · rw [kar_encode_err cc name coinType [mnemonic] w mnemonic w.2 e info s1 addr (hc w) hn hg he] at h
          simp at h
        · rw [kar_ok cc name coinType [mnemonic] w mnemonic w.2 info s1 addr out (hc w) hn hg he] at h
          simp at h
          exact ⟨info, s1, addr, rfl, hg, by rw [he, h]⟩
  refine ⟨?_, hstate w1, hstate w2⟩
  intro a1 a2 h1 h2
  obtain ⟨i1, s1, d1, hn1, hg1, he1⟩ := hres w1 a1 h1
  obtain ⟨i2, s2, d2, hn2, hg2, he2⟩ := hres w2 a2 h2
  have hi : i1 = i2 := hdet _ _ _ _ _ _ _ _ _ _ _ hn1 hn2
  subst hi
  rw [hg1] at hg2
  have hd : d1 = d2 := by simpa using hg2
  subst hd
  rw [he1] at he2
  simpa using he2

/-- The statement of C9 at the keyring in memory, for an empty and a non-empty
keystore. -/
theorem RestoreKey_deterministic_witness :
    DeterministicDerivation (demoClient "cosmos").Keybase ∧
    (RestoreKey (demoClient "cosmos") "bob" "ab" 118 ([], [])).1
      = .ok "cosmos1abm/44'/118'/0'/0/0" ∧
    (RestoreKey (demoClient "cosmos") "bob" "ab" 118 ([⟨"alice", [1]⟩], [[7]])).1
      = .ok "cosmos1abm/44'/118'/0'/0/0" ∧
    "cosmos1abm/44'/118'/0'/0/0" = "cosmos1abm/44'/118'/0'/0/0" :=
  ⟨memKeyring_deterministic demoDerive, by decide, by decide,
    (RestoreKey_deterministic (demoClient "cosmos") (memKeyring_deterministic demoDerive)
      "bob" "ab" 118 ([], []) ([⟨"alice", [1]⟩], [[7]])).1 _ _ (by decide) (by decide)⟩

/-- Claim C7: on every successful `KeyAddOrRestore` the reported mnemonic is the one
passed to `Keybase.NewAccount`.  With a mnemonic supplied it is the first
supplied one, the entropy source is left untouched and package `bip39` is not
consulted, and further supplied mnemonics are ignored.  With none supplied it
is the value `CreateMnemonic` returned, and an error of `CreateMnemonic` is
returned with the keystore unchanged and no keyring call made. -/
theorem KeyAddOrRestore_mnemonic (cc : ChainClient σ ρ) (keyName : String) (coinType : Nat)
    (mnemonic : List String) (s : σ) (r : ρ) :
    (∀ ko, (KeyAddOrRestore cc keyName coinType mnemonic (s, r)).1 = .ok ko →
      (KeyAddOrRestore (withJournal cc) keyName coinType mnemonic ((s, []), r)).2.1.2 =
        [KeyringCall.NewAccount keyName ko.Mnemonic "" (CreateHDPath coinType 0 0).PathString
          SignatureAlgo.Secp256k1]) ∧
    (∀ m0 rest, mnemonic = m0 :: rest →
      (∀ ko, (KeyAddOrRestore cc keyName coinType mnemonic (s, r)).1 = .ok ko →
        ko.Mnemonic = m0) ∧
      (KeyAddOrRestore cc keyName coinType mnemonic (s, r)).2.2 = r ∧
      (∀ b : Bip39 ρ, KeyAddOrRestore { cc with bip39 := b } keyName coinType mnemonic (s, r) =
        KeyAddOrRestore cc keyName coinType mnemonic (s, r)) ∧
      KeyAddOrRestore cc keyName coinType mnemonic (s, r) =
        KeyAddOrRestore cc keyName coinType [m0] (s, r)) ∧
    (mnemonic = [] →
      (∀ ko, (KeyAddOrRestore cc keyName coinType mnemonic (s, r)).1 = .ok ko →
        (CreateMnemonic cc.bip39 r).1 = .ok ko.Mnemonic) ∧
      (∀ err, (CreateMnemonic cc.bip39 r).1 = .error err →
        (KeyAddOrRestore cc keyName coinType mnemonic (s, r)).1 = .error err ∧
        (KeyAddOrRestore cc keyName coinType mnemonic (s, r)).2.1 = s ∧
        (KeyAddOrRestore (withJournal cc) keyName coinType mnemonic ((s, []), r)).2.1.2 = [])) := by
  refine ⟨?_, ?_, ?_⟩
  · intro ko hko
    rcases chosen_or_failed cc mnemonic r with ⟨m, r1, hc⟩ | ⟨rfl, e, r1, hm⟩
    · have hm := kar_ok_mnemonic cc keyName coinType mnemonic (s, r) m r1 hc ko hko
      rw [kar_journal cc keyName coinType mnemonic s [] r m r1 hc, hm]
      rfl
    · rw [kar_createMnemonic_err cc keyName coinType (s, r) e r1 hm] at hko
      simp at hko
  · rintro m0 rest rfl
    have hc : Chosen cc (m0 :: rest) r m0 r := Or.inl ⟨rest, rfl, rfl⟩
    refine ⟨fun ko hko => kar_ok_mnemonic cc keyName coinType _ (s, r) m0 r hc ko hko, ?_,
      fun b => rfl, rfl⟩
    rw [kar_keystore cc keyName coinType _ (s, r) m0 r hc]
  · rintro rfl
    refine ⟨?_, ?_⟩
    · intro ko hko
      rcases hm : CreateMnemonic cc.bip39 r with ⟨e | m, r1⟩
      · rw [kar_createMnemonic_err cc keyName coinType (s, r) e r1 hm] at hko
        simp at hko
      · have hc : Chosen cc [] r m r1 := Or.inr ⟨rfl, hm⟩
        rw [kar_ok_mnemonic cc keyName coinType [] (s, r) m r1 hc ko hko]
    · intro err herr
      rcases hm : CreateMnemonic cc.bip39 r with ⟨e | m, r1⟩
      · rw [hm] at herr
        have he : e = err := by simpa using herr
        subst he
        rw [kar_createMnemonic_err cc keyName coinType (s, r) e r1 hm,
          kar_journal_createMnemonic_err cc keyName coinType s [] r e r1 hm]
        exact ⟨rfl, rfl, rfl⟩
      · rw [hm] at herr
        simp at herr

/-- The statement of C7 at the keyring in memory: a restore from two supplied
mnemonics, and an add with the entropy supply exhausted. -/
theorem KeyAddOrRestore_mnemonic_witness :
    (KeyAddOrRestore (demoClient "cosmos") "alice" 118 ["ab", "cd"] ([], [[104, 105]])).1 =
      .ok ⟨"ab", "cosmos1abm/44'/118'/0'/0/0"⟩ ∧
    (KeyAddOrRestore (withJournal (demoClient "cosmos")) "alice" 118 ["ab", "cd"]
        (([], []), [[104, 105]])).2.1.2 =
      [KeyringCall.NewAccount "alice" "ab" "" (CreateHDPath 118 0 0).PathString
        SignatureAlgo.Secp256k1] ∧
    (KeyAddOrRestore (demoClient "cosmos") "alice" 118 ["ab", "cd"] ([], [[104, 105]])).2.2 =
      [[104, 105]] ∧
    (CreateMnemonic (demoClient "cosmos").bip39 ([] : List (List Nat))).1 =
      .error ErrEntropySource ∧
    (KeyAddOrRestore (withJournal (demoClient "cosmos")) "alice" 118 []
        (([], []), [])).2.1.2 = [] :=
  ⟨by decide,
    (KeyAddOrRestore_mnemonic (demoClient "cosmos") "alice" 118 ["ab", "cd"] []
      [[104, 105]]).1 ⟨"ab", "cosmos1abm/44'/118'/0'/0/0"⟩ (by decide),
    ((KeyAddOrRestore_mnemonic (demoClient "cosmos") "alice" 118 ["ab", "cd"] []
      [[104, 105]]).2.1 "ab" ["cd"] rfl).2.1,
    by decide,
    (((KeyAddOrRestore_mnemonic (demoClient "cosmos") "alice" 118 [] [] []).2.2 rfl).2
      ErrEntropySource (by decide)).2.2⟩

/-- Claim C2 fails as stated: the keystore in which "a" was added and then "b",
and the one in which "b" was added and then "a", list their records in
different orders, and `ListAddresses` returns the same map for both; the
result does not tell which key was added first. -/
theorem ListAddresses_order_counterexample :
    keystoreAB.map Record.Name = ["a", "b"] ∧
    keystoreBA.map Record.Name = ["b", "a"] ∧
    ((demoClient "cosmos").Keybase.List keystoreAB).1 = .ok keystoreAB ∧
    ((demoClient "cosmos").Keybase.List keystoreBA).1 = .ok keystoreBA ∧
    (∃ m, (ListAddresses (demoClient "cosmos") keystoreAB).1 = .ok m ∧
      (ListAddresses (demoClient "cosmos") keystoreBA).1 = .ok m) := by
  refine ⟨by decide, by decide, by decide, by decide, ?_⟩
  have hp : keystoreAB.Perm keystoreBA := by decide
  have hnd : (keystoreAB.map Record.Name).Nodup := by decide
  obtain ⟨m, hm⟩ := loop_ok_of_all (demoClient "cosmos") keystoreAB ∅
    (fun k _ => ⟨_, rfl⟩)
  refine ⟨m, ?_, ?_⟩
  · rw [listAddresses_mem, hm]
  · rw [listAddresses_mem]
    exact loop_perm (demoClient "cosmos") keystoreAB keystoreBA m hp hnd hm

/-- Claim C10: if `Keybase.List` fails, `ListAddresses` returns that error and no
map.  If it returns records with pairwise distinct names whose addresses can
all be encoded, the result is a map that holds the encoded address of every
record under the record's name, has no other key, and has as many entries as
there are records.  If computing the address fails for a record and succeeds
for all records before it, the result is that error and no map; and if it
fails for any record, the result is the error of one of the records and no map. -/
theorem ListAddresses_all_or_nothing (cc : ChainClient σ ρ) (s : σ) :
    (∀ err s1, cc.Keybase.List s = (.error err, s1) → ListAddresses cc s = (.error err, s1)) ∧
    (∀ info s1, cc.Keybase.List s = (.ok info, s1) →
      ((info.map Record.Name).Nodup → (∀ k ∈ info, ∃ v, Encoded cc k v) →
        ∃ m, ListAddresses cc s = (.ok m, s1) ∧
          (∀ k ∈ info, ∀ v, Encoded cc k v → m.lookup k.Name = some v) ∧
          (∀ n, n ∈ m → ∃ k ∈ info, k.Name = n) ∧
          m.keys.card = info.length) ∧
      (∀ pre k post err, info = pre ++ k :: post → (∀ p ∈ pre, ∃ v, Encoded cc p v) →
        FailsWith cc k err → ListAddresses cc s = (.error err, s1)) ∧
      ((∃ k ∈ info, ∃ e, FailsWith cc k e) →
        ∃ err, ListAddresses cc s = (.error err, s1) ∧ ∃ k ∈ info, FailsWith cc k err)) := by
  refine ⟨?_, ?_⟩
  · intro err s1 h
    simp [ListAddresses, h]
  · intro info s1 h
    have hl : ListAddresses cc s = (ListAddresses.loop cc info ∅, s1) := by
      simp [ListAddresses, h]
    refine ⟨?_, ?_, ?_⟩
    · intro hnd hall
      obtain ⟨m, hm⟩ := loop_ok_of_all cc info ∅
        (fun k hk => (hall k hk).imp fun v hv => (addressOf_ok_iff cc k v).2 hv)
      obtain ⟨h1, _⟩ := loop_lookup cc info ∅ m hnd hm
      have hkeys := loop_keys cc info m hnd hm
      refine ⟨m, by rw [hl, hm], ?_, ?_, ?_⟩
      · intro k hk v hv
        obtain ⟨v', hv', hl'⟩ := h1 k hk
        rw [(addressOf_ok_iff cc k v).2 hv] at hv'
        have : v = v' := by simpa using hv'
        rw [hl', this]
      · intro n hn
        have : n ∈ (info.map Record.Name).toFinset := hkeys ▸ Finmap.mem_keys.2 hn
        simpa using this
      · rw [hkeys, List.toFinset_card_of_nodup hnd, List.length_map]
    · rintro pre k post err rfl hpre hk
      rw [hl, loop_first_error cc pre k post err ((addressOf_error_iff cc k err).2 hk) ∅
        (fun p hp => (hpre p hp).imp fun v hv => (addressOf_ok_iff cc p v).2 hv)]
    · rintro ⟨k, hk, e, he⟩
      obtain ⟨err, h1, k2, hk2, h2⟩ := loop_error_of_exists cc info ∅
        ⟨k, hk, e, (addressOf_error_iff cc k e).2 he⟩
      exact ⟨err, by rw [hl, h1], k2, hk2, (addressOf_error_iff cc k2 err).1 h2⟩

/-- The statement of C10 at the keyring in memory: two records listed, and the
listing that fails on the first record for want of an account prefix. -/
theorem ListAddresses_all_or_nothing_witness :
    (∃ m, ListAddresses (demoClient "cosmos") keystoreAB = (.ok m, keystoreAB) ∧
      (∀ k ∈ keystoreAB, ∀ v, Encoded (demoClient "cosmos") k v → m.lookup k.Name = some v) ∧
      (∀ n, n ∈ m → ∃ k ∈ keystoreAB, k.Name = n) ∧
      m.keys.card = keystoreAB.length) ∧
    ListAddresses (demoClient "") keystoreAB = (.error ErrEmptyHrp, keystoreAB) :=
  ⟨((ListAddresses_all_or_nothing (demoClient "cosmos") keystoreAB).2 keystoreAB keystoreAB
      rfl).1 (by decide) (fun k _ => ⟨_, _, rfl, rfl⟩),
    ((ListAddresses_all_or_nothing (demoClient "") keystoreAB).2 keystoreAB keystoreAB
      rfl).2.1 [] recordA [recordB] ErrEmptyHrp (by decide) (fun p hp => absurd hp (List.not_mem_nil _))
      (Or.inr ⟨_, rfl, rfl⟩)⟩

/-- Claim C2, amended: `ListAddresses` returns a map without order.  For records
with pairwise distinct names, if the listing of one keystore succeeds with the
map `m`, the listing of any keystore whose `List` yields the same records in
another order succeeds with the same map `m`; the map has a key for every
record and no other key. -/
theorem ListAddresses_unordered (cc : ChainClient σ ρ) (s s' : σ) (info info' : List Record)
    (s1 s1' : σ) (m : GoMap)
    (hl : cc.Keybase.List s = (.ok info, s1)) (hl' : cc.Keybase.List s' = (.ok info', s1'))
    (hp : info.Perm info') (hnd : (info.map Record.Name).Nodup)
    (h : (ListAddresses cc s).1 = .ok m) :
    (ListAddresses cc s').1 = .ok m ∧ (∀ k ∈ info, k.Name ∈ m) ∧
      (∀ n, n ∈ m → ∃ k ∈ info, k.Name = n) := by
  have e1 : (ListAddresses cc s).1 = ListAddresses.loop cc info ∅ := by
    simp [ListAddresses, hl]
  have e2 : (ListAddresses cc s').1 = ListAddresses.loop cc info' ∅ := by
    simp [ListAddresses, hl']
  rw [e1] at h
  have hkeys := loop_keys cc info m hnd h
  refine ⟨by rw [e2]; exact loop_perm cc info info' m hp hnd h, ?_, ?_⟩
  · intro k hk
    rw [← Finmap.mem_keys, hkeys]
    simpa using ⟨k, hk, rfl⟩
  · intro n hn
    have : n ∈ (info.map Record.Name).toFinset := hkeys ▸ Finmap.mem_keys.2 hn
    simpa using this

/-- The statement of the amended C2 for the keystores in which "a" and "b" were
added in either order. -/
theorem ListAddresses_unordered_witness :
    ∃ m, (ListAddresses (demoClient "cosmos") keystoreAB).1 = .ok m ∧
      (ListAddresses (demoClient "cosmos") keystoreBA).1 = .ok m ∧
      "a" ∈ m ∧ "b" ∈ m :=
  (loop_ok_of_all (demoClient "cosmos") keystoreAB ∅ (fun k _ => ⟨_, rfl⟩)).elim fun m hm =>
    have h := ListAddresses_unordered (demoClient "cosmos") keystoreAB keystoreBA keystoreAB
      keystoreBA keystoreAB keystoreBA m rfl rfl (by decide) (by decide) hm
    ⟨m, hm, h.1, h.2.1 recordA (by decide), h.2.1 recordB (by decide)⟩


end Lemmas

end Lens
